import Mathlib

/-!
Verification development for the watch-and-preview service in `src/src/main.rs`
(a `typst` watch/websocket-preview CLI).

Shallow embedding conventions:
* Filesystem paths are strings; the OS file identity obtained by
  `same_file::Handle::from_path` is modelled as a `Nat` token.
* The ambient filesystem (`Handle::from_path`, `Path::canonicalize`,
  `PathExt::normalize`, `fs::read`) is a record of pure functions `FileSys`;
  one compilation cycle sees an immutable filesystem, matching the TOCTOU
  caveat accepted by the program.
* `u16` arithmetic of `SourceId::from_u16(len as u16)` is modelled as
  `% 65536` on `Nat`.
* Stateful methods of `SystemWorld` become explicit state passing; every
  function additionally returns the list of filesystem operations it
  performed (`FsOp`), instrumentation used only to state read-count
  properties — it never influences results.
* `String::from_utf8` is modelled by a pure partial decoder on byte lists
  (ASCII fragment); the claims only depend on the decoder being a pure
  function that can fail.
-/

namespace Ws

abbrev Path := String

/-- File-access errors, `typst::diag::FileError` as used by `main.rs`. -/
inductive FileError where
  | notFound (path : Path)
  | accessDenied
  | isDirectory
  | invalidUtf8
  | other
deriving DecidableEq

/-- Result type specialised to `FileError`, i.e. `typst::diag::FileResult`. -/
inductive FileResult (α : Type) where
  | ok (val : α)
  | err (e : FileError)
deriving DecidableEq

/-- Display string of a `FileError`; `err.to_string()` in `compile_once`. -/
def FileError.message : FileError → String
  | FileError.notFound p => "file not found (searched at " ++ p ++ ")"
  | FileError.accessDenied => "failed to load file (access denied)"
  | FileError.isDirectory => "failed to load file (is a directory)"
  | FileError.invalidUtf8 => "file is not valid utf-8"
  | FileError.other => "failed to load file"

/-- One filesystem access performed by the cache.  `stat` is the identity
lookup of `same_file::Handle::from_path`, `canon` is `Path::canonicalize`,
and `readFile` is the content read done by `read` (`fs::metadata` +
`fs::read` in `main.rs`). -/
inductive FsOp where
  | stat (path : Path)
  | canon (path : Path)
  | readFile (path : Path)
deriving DecidableEq

/-- Is the operation a file content read? -/
def isRead : FsOp → Bool
  | FsOp.readFile _ => true
  | _ => false

/-- Number of file content reads in an operation log. -/
def countReads (ops : List FsOp) : Nat :=
  (ops.filter isRead).length

/-- Pure model of `String::from_utf8`: decodes a byte list to text, failing
on invalid input (modelled on the ASCII fragment). -/
def utf8Decode (bytes : List Nat) : Option String :=
  if bytes.all (fun b => b < 128) then
    some (String.mk (bytes.map Char.ofNat))
  else
    none

/-- The ambient filesystem seen by one compilation cycle. -/
structure FileSys where
  handle : Path → FileResult Nat
  canon : Path → Option Path
  normalize : Path → Path
  readBytes : Path → FileResult (List Nat)

/-- A decoded source file, `typst::syntax::Source` restricted to the fields
`main.rs` uses: its id, path and text. -/
structure Source where
  id : Nat
  path : Path
  text : String
deriving DecidableEq

/-- Holds canonical data for all paths pointing to the same entity
(`struct PathSlot`); the `OnceCell`s become `Option`s. -/
structure PathSlot where
  source : Option (FileResult Nat)
  buffer : Option (FileResult (List Nat))
deriving DecidableEq

/-- The `Default` instance used by `entry(hash).or_default()`. -/
def PathSlot.empty : PathSlot :=
  { source := none, buffer := none }

/-- Association-list lookup, modelling `HashMap::get`. -/
def lookupA {α β : Type} [DecidableEq α] : List (α × β) → α → Option β
  | [], _ => none
  | (k, v) :: rest, key => if k = key then some v else lookupA rest key

/-- Association-list insert-or-overwrite, modelling `HashMap::insert`. -/
def insertA {α β : Type} [DecidableEq α] : List (α × β) → α → β → List (α × β)
  | [], key, v => [(key, v)]
  | (k, w) :: rest, key, v =>
    if k = key then (key, v) :: rest else (k, w) :: insertA rest key v

/-- The cache state of `struct SystemWorld` (fonts and the library, which no
claim touches, are omitted): the Path→Identity map `hashes`, the Slot map
`paths`, the Source Store `sources` and the main source id. -/
structure SystemWorld where
  hashes : List (Path × FileResult Nat)
  paths : List (Nat × PathSlot)
  sources : List Source
  main : Nat
deriving DecidableEq

/-- The state built by `SystemWorld::new`: all cache maps empty, `main`
detached (`SourceId::detached()`, i.e. `u16::MAX`). -/
def SystemWorld.empty : SystemWorld :=
  { hashes := [], paths := [], sources := [], main := 65535 }

/-- Model of `PathHash::new`: obtains the OS file identity via
`Handle::from_path` and hashes it with `SipHasher`.  The 128-bit hash of
the handle is modelled as the handle token itself (an injective hash). -/
def PathHash.new (fs : FileSys) (path : Path) : FileResult Nat :=
  fs.handle path

/-- First half of `SystemWorld::slot`: consult the `hashes` map, and on a
miss compute `PathHash::new` and record it under both the canonicalized,
normalized path and the raw path (errors are recorded too). -/
def SystemWorld.slotHash (fs : FileSys) (w : SystemWorld) (path : Path) :
    FileResult Nat × SystemWorld × List FsOp :=
  match lookupA w.hashes path with
  | some h => (h, w, [])
  | none =>
    let h := PathHash.new fs path
    let w1 :=
      match fs.canon path with
      | some c => { w with hashes := insertA w.hashes (fs.normalize c) h }
      | none => w
    let w2 := { w1 with hashes := insertA w1.hashes path h }
    (h, w2, [FsOp.stat path, FsOp.canon path])

/-- Model of `SystemWorld::slot`: resolve the path hash (propagating a
cached or fresh failure with `?`), then return the slot for that hash,
creating an empty one if absent (`entry(hash).or_default()`). -/
def SystemWorld.slot (fs : FileSys) (w : SystemWorld) (path : Path) :
    FileResult (Nat × PathSlot) × SystemWorld × List FsOp :=
  match SystemWorld.slotHash fs w path with
  | (FileResult.err e, w1, ops) => (FileResult.err e, w1, ops)
  | (FileResult.ok h, w1, ops) =>
    match lookupA w1.paths h with
    | some sl => (FileResult.ok (h, sl), w1, ops)
    | none =>
      (FileResult.ok (h, PathSlot.empty),
       { w1 with paths := insertA w1.paths h PathSlot.empty }, ops)

/-- Model of `SystemWorld::insert`: the new id is the current store length
truncated to `u16` (`SourceId::from_u16(self.sources.len() as u16)`), and
the source is appended to the store. -/
def SystemWorld.insert (w : SystemWorld) (path : Path) (text : String) :
    Nat × SystemWorld :=
  let id := w.sources.length % 65536
  (id, { w with sources := w.sources ++ [{ id := id, path := path, text := text }] })

/-- The closure given to `source.get_or_init` inside `SystemWorld::resolve`,
together with the cell update: if the slot's source cell is filled, answer
from it; otherwise read the file, decode it as text and append it to the
Source Store, caching the resulting id — or the failure — in the cell. -/
def loadSource (fs : FileSys) (w : SystemWorld) (path : Path) (h : Nat)
    (sl : PathSlot) : FileResult Nat × SystemWorld × List FsOp :=
  match sl.source with
  | some r => (r, w, [])
  | none =>
    match fs.readBytes path with
    | FileResult.err e =>
      (FileResult.err e,
       { w with paths := insertA w.paths h { sl with source := some (FileResult.err e) } },
       [FsOp.readFile path])
    | FileResult.ok bytes =>
      match utf8Decode bytes with
      | none =>
        (FileResult.err FileError.invalidUtf8,
         { w with paths :=
             insertA w.paths h { sl with source := some (FileResult.err FileError.invalidUtf8) } },
         [FsOp.readFile path])
      | some text =>
        match SystemWorld.insert w path text with
        | (id, w1) =>
          (FileResult.ok id,
           { w1 with paths := insertA w1.paths h { sl with source := some (FileResult.ok id) } },
           [FsOp.readFile path])

/-- Model of `SystemWorld::resolve` (`World::resolve` in `main.rs`). -/
def SystemWorld.resolve (fs : FileSys) (w : SystemWorld) (path : Path) :
    FileResult Nat × SystemWorld × List FsOp :=
  match SystemWorld.slot fs w path with
  | (FileResult.err e, w1, ops) => (FileResult.err e, w1, ops)
  | (FileResult.ok (h, sl), w1, ops) =>
    match loadSource fs w1 path h sl with
    | (r, w2, ops2) => (r, w2, ops ++ ops2)

/-- Model of `SystemWorld::source`: index into the Source Store with the
id's `u16` value (`self.sources[id.into_u16() as usize]`); out-of-bounds
indexing, a panic in Rust, is partiality (`none`) here. -/
def SystemWorld.source (w : SystemWorld) (id : Nat) : Option Source :=
  w.sources.get? (id % 65536)

/-- Model of `SystemWorld::reset`: clears the Source Store, the
Path→Identity map and the Slot map. -/
def SystemWorld.reset (w : SystemWorld) : SystemWorld :=
  { w with sources := [], hashes := [], paths := [] }

/-- Model of `SystemWorld::dependant`: the normalized path appears in the
Path→Identity map, or its current `PathHash` is a key of the Slot map. -/
def SystemWorld.dependant (fs : FileSys) (w : SystemWorld) (path : Path) : Bool :=
  (lookupA w.hashes (fs.normalize path)).isSome ||
    (match PathHash.new fs path with
     | FileResult.ok h => (lookupA w.paths h).isSome
     | FileResult.err _ => false)

/-- Modify-event kinds of `notify::event::ModifyKind`; the payloads of
`Data`, `Metadata` and `Name`, which `relevant` never inspects, are
dropped. -/
inductive ModifyKind where
  | any
  | data
  | metadata
  | name
  | other
deriving DecidableEq

/-- Event kinds of `notify::EventKind`; payloads that `relevant` never
inspects are dropped. -/
inductive EventKind where
  | any
  | access
  | create
  | modify (kind : ModifyKind)
  | remove
  | other
deriving DecidableEq

/-- A filesystem notification: `notify::Event` restricted to the fields
`relevant` reads. -/
structure Event where
  kind : EventKind
  paths : List Path
deriving DecidableEq

/-- Model of `SystemWorld::relevant`, preserving the fall-through structure
of the Rust `match`: kinds that `return` early do so, the remaining kinds
fall through to the `dependant` check over the event's paths. -/
def SystemWorld.relevant (fs : FileSys) (w : SystemWorld) (event : Event) : Bool :=
  match event.kind with
  | EventKind.any => event.paths.any (fun p => SystemWorld.dependant fs w p)
  | EventKind.access => false
  | EventKind.create => true
  | EventKind.modify ModifyKind.any => event.paths.any (fun p => SystemWorld.dependant fs w p)
  | EventKind.modify ModifyKind.data => event.paths.any (fun p => SystemWorld.dependant fs w p)
  | EventKind.modify ModifyKind.metadata => false
  | EventKind.modify ModifyKind.name => true
  | EventKind.modify ModifyKind.other => false
  | EventKind.remove => event.paths.any (fun p => SystemWorld.dependant fs w p)
  | EventKind.other => false

/-- String-error results, `typst::diag::StrResult` (the return type of
`compile_once` and of each `watch` loop outcome). -/
inductive StrResult (α : Type) where
  | ok (val : α)
  | err (msg : String)
deriving DecidableEq

/-- A compiler diagnostic, `typst::diag::SourceError` restricted to its
message: `compile_once` only forwards the list to the diagnostic printer. -/
structure SourceError where
  message : String
deriving DecidableEq

/-- A laid-out page frame produced by the compiler, opaque to `main.rs`. -/
abbrev Frame := String

/-- A rasterized page (`tiny_skia::Pixmap`), abstracted to its encoded
image data. -/
abbrev Pixmap := String

/-- Model of `typst::export::render` at scale `2.0` on white background:
an opaque pure rasterizer of one frame. -/
def render (frame : Frame) : Pixmap :=
  "png:" ++ frame

/-- Outcome of `typst::compile`: a document (its page frames) or a list of
diagnostics.  The compiler is external (spec section 1); it is modelled as
a pure function of the world it is handed.  (The real compiler may pull
further files through the world's cache; the claims below only rely on the
root load that `compile_once` itself performs.) -/
inductive CompilerResult where
  | document (pages : List Frame)
  | errors (errs : List SourceError)
deriving DecidableEq

/-- The fields of `CompileSettings` that `compile_once` reads. -/
structure CompileSettings where
  input : Path
  watch : Bool
deriving DecidableEq

/-- Model of `compile_once`: reset the cache, resolve the input path
(mapping a failure to its display string with `?`), set `main`, run the
compiler; on compiler success render every page, on compiler errors print
the diagnostics and return an empty page list. -/
def compile_once (fs : FileSys) (compiler : SystemWorld → CompilerResult)
    (w : SystemWorld) (command : CompileSettings) :
    StrResult (List Pixmap) × SystemWorld :=
  match SystemWorld.resolve fs (SystemWorld.reset w) command.input with
  | (FileResult.err e, w1, _) => (StrResult.err (FileError.message e), w1)
  | (FileResult.ok id, w1, _) =>
    let w2 := { w1 with main := id }
    match compiler w2 with
    | CompilerResult.document pages => (StrResult.ok (pages.map render), w2)
    | CompilerResult.errors _ => (StrResult.ok [], w2)

/-- Model of the `watch` event loop body (`main.rs` lines 247-263) run over
a finite trace of delivered events: drain events until a relevant one
arrives, then run `compile_once`; a `compile_once` error is propagated by
`?`, ending the loop.  The result pairs the number of `compile_once`
invocations with the final state (`ok`: trace exhausted while the loop
waits for the next event; `err`: the loop terminated with that error).
Broadcasting and `comemo::evict(30)` do not touch the world state and are
modelled separately. -/
def watchEvents (fs : FileSys) (compiler : SystemWorld → CompilerResult)
    (command : CompileSettings) :
    SystemWorld → List Event → Nat × StrResult SystemWorld
  | w, [] => (0, StrResult.ok w)
  | w, e :: rest =>
    if SystemWorld.relevant fs w e then
      match compile_once fs compiler w command with
      | (StrResult.err msg, _) => (1, StrResult.err msg)
      | (StrResult.ok _, w2) =>
        let next := watchEvents fs compiler command w2 rest
        (next.1 + 1, next.2)
    else
      watchEvents fs compiler command w rest

/-- A viewer session: its transport either accepts sends (`ok = true`) or
fails them, and `received` records the text frames delivered to it. -/
structure Conn where
  ok : Bool
  received : List String
deriving DecidableEq

/-- Base64 (standard alphabet, no padding) of a page's PNG encoding,
modelled as an opaque injective pure encoding. -/
def encodeBase64NoPad (bytes : Pixmap) : String :=
  bytes

/-- The data URI built for one page in `broadcast_result`. -/
def dataUri (page : Pixmap) : String :=
  "data:image/png;base64," ++ encodeBase64NoPad page

/-- JSON string literal; `serde_json` escaping is elided because data URIs
contain no characters that need escaping. -/
def jsonString (s : String) : String :=
  "\"" ++ s ++ "\""

/-- Model of `serde_json::to_string` on a vector of strings. -/
def jsonEncodeList (strs : List String) : String :=
  "[" ++ String.intercalate "," (strs.map jsonString) ++ "]"

/-- The send pass of `broadcast_result`: walk the session list in order
(index `i` counting up), attempt to send `json` to each session, and
collect the indices whose send failed; no failure stops the pass. -/
def sendPass (json : String) : List Conn → Nat → List Conn × List Nat
  | [], _ => ([], [])
  | c :: cs, i =>
    let rest := sendPass json cs (i + 1)
    if c.ok then
      ({ c with received := c.received ++ [json] } :: rest.1, rest.2)
    else
      (c :: rest.1, i :: rest.2)

/-- Model of `Vec::contains` on the removal list. -/
def containsNat : List Nat → Nat → Bool
  | [], _ => false
  | m :: rest, n => (m == n) || containsNat rest n

/-- Model of `Vec::retain(with_index(pred))`: keep the elements whose
running index satisfies the predicate. -/
def retainIdx (pred : Nat → Conn → Bool) : List Conn → Nat → List Conn
  | [], _ => []
  | c :: cs, i =>
    if pred i c then c :: retainIdx pred cs (i + 1) else retainIdx pred cs (i + 1)

/-- Model of `broadcast_result`: encode every page as a data URI, serialize
the list as one JSON text frame, send it to every session collecting the
indices of failed sends, then remove exactly those indices. -/
def broadcast_result (conns : List Conn) (imgs : List Pixmap) : List Conn :=
  let json := jsonEncodeList (imgs.map dataUri)
  let pass := sendPass json conns 0
  retainIdx (fun i _ => !(containsNat pass.2 i)) pass.1 0

/-- Specification helper: what a successful send does to a session. -/
def appendMsg (json : String) (c : Conn) : Conn :=
  { c with received := c.received ++ [json] }

/-- Specification helper: the indices (counting from `n`) of the sessions
whose transport fails. -/
def failedIndices : List Conn → Nat → List Nat
  | [], _ => []
  | c :: cs, n =>
    if c.ok then failedIndices cs (n + 1) else n :: failedIndices cs (n + 1)

/-- Specification helper: event kinds that `relevant` accepts before ever
looking at the event's paths. -/
def alwaysRelevantKind : EventKind → Bool
  | EventKind.create => true
  | EventKind.modify ModifyKind.name => true
  | _ => false

/-- Specification helper: event kinds that `relevant` rejects before ever
looking at the event's paths. -/
def neverRelevantKind : EventKind → Bool
  | EventKind.access => true
  | EventKind.modify ModifyKind.metadata => true
  | EventKind.modify ModifyKind.other => true
  | EventKind.other => true
  | _ => false

/-- Iterate `SystemWorld.insert` with a fixed path and text `n` times,
used to reach large Source Store states by the program's own operation. -/
def insertN : SystemWorld → Nat → SystemWorld
  | w, 0 => w
  | w, n + 1 => insertN (SystemWorld.insert w "f" "t").2 n

/-- Fixture: a filesystem with a single readable file `main` (identity
token 1, content `"h"`). -/
def fsMain : FileSys :=
  { handle := fun p => if p = "main" then FileResult.ok 1 else FileResult.err (FileError.notFound p),
    canon := fun p => if p = "main" then some "main" else none,
    normalize := fun p => p,
    readBytes := fun p => if p = "main" then FileResult.ok [104] else FileResult.err (FileError.notFound p) }

/-- Fixture: a filesystem on which every access fails. -/
def fsNone : FileSys :=
  { handle := fun p => FileResult.err (FileError.notFound p),
    canon := fun _ => none,
    normalize := fun p => p,
    readBytes := fun p => FileResult.err (FileError.notFound p) }

/-- Fixture: compile settings watching the input file `main`. -/
def cmdMain : CompileSettings :=
  { input := "main", watch := true }

/-- Fixture: a compiler that always succeeds with a document of no pages. -/
def compilerEmptyDoc : SystemWorld → CompilerResult :=
  fun _ => CompilerResult.document []

/-- Fixture: a compiler that always reports one diagnostic. -/
def compilerFailing : SystemWorld → CompilerResult :=
  fun _ => CompilerResult.errors [{ message := "boom" }]

/-- Fixture: the world state after a compile of `main` on `fsMain`: the
file is tracked by the Path→Identity map and the Slot map. -/
def wTracked : SystemWorld :=
  { hashes := [("main", FileResult.ok 1)],
    paths := [(1, { source := some (FileResult.ok 0), buffer := none })],
    sources := [{ id := 0, path := "main", text := "h" }],
    main := 0 }

/-- Fixture: a content-modification event on the tracked file `main`. -/
def evDataMain : Event :=
  { kind := EventKind.modify ModifyKind.data, paths := ["main"] }

theorem lookupA_insertA {α β : Type} [DecidableEq α] (m : List (α × β)) (k q : α) (v : β) :
    lookupA (insertA m k v) q = if k = q then some v else lookupA m q := by
  induction m with
  | nil => simp [insertA, lookupA]
  | cons kv rest ih =>
    obtain ⟨k1, v1⟩ := kv
    simp only [insertA]
    by_cases h1 : k1 = k
    · subst h1
      simp only [if_pos rfl, lookupA]
      by_cases h2 : k1 = q <;> simp [h2]
    · simp only [if_neg h1, lookupA]
      by_cases h2 : k1 = q
      · subst h2
        rw [ih]
        have hkq : ¬ k = k1 := fun hh => h1 hh.symm
        simp [hkq]
      · simp [h2, ih]

/-- A path is settled in a world when a repeated `resolve` is answered
entirely from the caches: either the Path→Identity map caches a resolution
failure for it, or it maps to an identity whose slot's source cell is
filled (with the cached id or the cached load failure `r`). -/
def Settled (w : SystemWorld) (p : Path) (r : FileResult Nat) : Prop :=
  (∃ e, lookupA w.hashes p = some (FileResult.err e) ∧ r = FileResult.err e) ∨
  (∃ h sl, lookupA w.hashes p = some (FileResult.ok h) ∧
    lookupA w.paths h = some sl ∧ sl.source = some r)

/-- A settled path is answered from the caches: same result, unchanged
state, and not a single filesystem operation. -/
theorem resolve_of_settled (fs : FileSys) (w : SystemWorld) (p : Path)
    (r : FileResult Nat) (hs : Settled w p r) :
    SystemWorld.resolve fs w p = (r, w, []) := by
  rcases hs with ⟨e, hl, hr⟩ | ⟨h, sl, hl, hp, hsrc⟩
  · subst hr
    simp [SystemWorld.resolve, SystemWorld.slot, SystemWorld.slotHash, hl]
  · simp [SystemWorld.resolve, SystemWorld.slot, SystemWorld.slotHash, hl, hp,
      loadSource, hsrc]

/-- Behaviour of the `get_or_init` stage: it never touches the
Path→Identity map, and afterwards the slot's source cell holds exactly the
returned result. -/
theorem loadSource_spec (fs : FileSys) (w : SystemWorld) (p : Path) (h : Nat)
    (sl : PathSlot) (hp : lookupA w.paths h = some sl) :
    ∃ r w2 ops, loadSource fs w p h sl = (r, w2, ops) ∧
      w2.hashes = w.hashes ∧
      ∃ sl2, lookupA w2.paths h = some sl2 ∧ sl2.source = some r := by
  cases hsrc : sl.source with
  | some r => exact ⟨r, w, [], by simp [loadSource, hsrc], rfl, sl, hp, hsrc⟩
  | none =>
    cases hrb : fs.readBytes p with
    | err e =>
      refine ⟨FileResult.err e,
        { w with paths := insertA w.paths h { sl with source := some (FileResult.err e) } },
        [FsOp.readFile p], ?_, rfl, ?_⟩
      · simp [loadSource, hsrc, hrb]
      · exact ⟨{ sl with source := some (FileResult.err e) }, by simp [lookupA_insertA], rfl⟩
    | ok bytes =>
      cases hdec : utf8Decode bytes with
      | none =>
        refine ⟨FileResult.err FileError.invalidUtf8,
          { w with paths :=
              insertA w.paths h { sl with source := some (FileResult.err FileError.invalidUtf8) } },
          [FsOp.readFile p], ?_, rfl, ?_⟩
        · simp [loadSource, hsrc, hrb, hdec]
        · exact ⟨{ sl with source := some (FileResult.err FileError.invalidUtf8) },
            by simp [lookupA_insertA], rfl⟩
      | some text =>
        refine ⟨FileResult.ok (w.sources.length % 65536),
          { w with
              paths := insertA w.paths h
                { sl with source := some (FileResult.ok (w.sources.length % 65536)) },
              sources := w.sources ++
                [{ id := w.sources.length % 65536, path := p, text := text }] },
          [FsOp.readFile p], ?_, rfl, ?_⟩
        · simp [loadSource, hsrc, hrb, hdec, SystemWorld.insert]
        · exact ⟨{ sl with source := some (FileResult.ok (w.sources.length % 65536)) },
            by simp [lookupA_insertA], rfl⟩

/-- Behaviour of the `slot` stage: it either returns a failure that is now
cached in the Path→Identity map, or a hash now cached there together with
a slot present in the Slot map. -/
theorem slot_spec (fs : FileSys) (w : SystemWorld) (p : Path) :
    (∃ e w1 ops, SystemWorld.slot fs w p = (FileResult.err e, w1, ops) ∧
        lookupA w1.hashes p = some (FileResult.err e)) ∨
    (∃ h sl w1 ops, SystemWorld.slot fs w p = (FileResult.ok (h, sl), w1, ops) ∧
        lookupA w1.hashes p = some (FileResult.ok h) ∧
        lookupA w1.paths h = some sl) := by
  cases hl : lookupA w.hashes p with
  | some fr =>
    cases fr with
    | err e =>
      left
      exact ⟨e, w, [], by simp [SystemWorld.slot, SystemWorld.slotHash, hl], hl⟩
    | ok h =>
      right
      cases hp : lookupA w.paths h with
      | some sl =>
        exact ⟨h, sl, w, [],
          by simp [SystemWorld.slot, SystemWorld.slotHash, hl, hp], hl, hp⟩
      | none =>
        refine ⟨h, PathSlot.empty, { w with paths := insertA w.paths h PathSlot.empty }, [],
          by simp [SystemWorld.slot, SystemWorld.slotHash, hl, hp], hl, ?_⟩
        simp [lookupA_insertA]
  | none =>
    cases hh : fs.handle p with
    | err e =>
      left
      cases hc : fs.canon p with
      | none =>
        refine ⟨e, { w with hashes := insertA w.hashes p (FileResult.err e) },
          [FsOp.stat p, FsOp.canon p], ?_, ?_⟩ <;>
          simp [SystemWorld.slot, SystemWorld.slotHash, PathHash.new, hl, hh, hc,
            lookupA_insertA]
      | some c =>
        refine ⟨e,
          { w with hashes := insertA (insertA w.hashes (fs.normalize c) (FileResult.err e)) p (FileResult.err e) },
          [FsOp.stat p, FsOp.canon p], ?_, ?_⟩ <;>
          simp [SystemWorld.slot, SystemWorld.slotHash, PathHash.new, hl, hh, hc,
            lookupA_insertA]
    | ok h =>
      right
      cases hc : fs.canon p with
      | none =>
        cases hp : lookupA w.paths h with
        | some sl =>
          refine ⟨h, sl, { w with hashes := insertA w.hashes p (FileResult.ok h) },
            [FsOp.stat p, FsOp.canon p], ?_, ?_, ?_⟩ <;>
            simp [SystemWorld.slot, SystemWorld.slotHash, PathHash.new, hl, hh, hc,
              lookupA_insertA, hp]
        | none =>
          refine ⟨h, PathSlot.empty,
            { w with hashes := insertA w.hashes p (FileResult.ok h), paths := insertA w.paths h PathSlot.empty },
            [FsOp.stat p, FsOp.canon p], ?_, ?_, ?_⟩ <;>
            simp [SystemWorld.slot, SystemWorld.slotHash, PathHash.new, hl, hh, hc,
              lookupA_insertA, hp]
      | some c =>
        cases hp : lookupA w.paths h with
        | some sl =>
          refine ⟨h, sl,
            { w with hashes := insertA (insertA w.hashes (fs.normalize c) (FileResult.ok h)) p (FileResult.ok h) },
            [FsOp.stat p, FsOp.canon p], ?_, ?_, ?_⟩ <;>
            simp [SystemWorld.slot, SystemWorld.slotHash, PathHash.new, hl, hh, hc,
              lookupA_insertA, hp]
        | none =>
          refine ⟨h, PathSlot.empty,
            { w with hashes := insertA (insertA w.hashes (fs.normalize c) (FileResult.ok h)) p (FileResult.ok h), paths := insertA w.paths h PathSlot.empty },
            [FsOp.stat p, FsOp.canon p], ?_, ?_, ?_⟩ <;>
            simp [SystemWorld.slot, SystemWorld.slotHash, PathHash.new, hl, hh, hc,
              lookupA_insertA, hp]

/-- After any `resolve`, the path is settled in the resulting world with
the returned result: the caches remember the answer, failures included. -/
theorem resolve_settles (fs : FileSys) (w : SystemWorld) (p : Path) :
    Settled (SystemWorld.resolve fs w p).2.1 p (SystemWorld.resolve fs w p).1 := by
  rcases slot_spec fs w p with ⟨e, w1, ops, hq, hl⟩ | ⟨h, sl, w1, ops, hq, hl, hp⟩
  · left
    exact ⟨e, by simp [SystemWorld.resolve, hq, hl], by simp [SystemWorld.resolve, hq]⟩
  · rcases loadSource_spec fs w1 p h sl hp with ⟨r, w2, ops2, hq2, hh2, sl2, hp2, hs2⟩
    right
    refine ⟨h, sl2, ?_, ?_, ?_⟩ <;>
      simp [SystemWorld.resolve, hq, hq2, hh2, hl, hp2, hs2]

/-- Memoization: a second `resolve` of the same path returns the identical
result, leaves the world unchanged, and performs no filesystem operation. -/
theorem resolve_idem (fs : FileSys) (w : SystemWorld) (p : Path) :
    SystemWorld.resolve fs (SystemWorld.resolve fs w p).2.1 p
      = ((SystemWorld.resolve fs w p).1, (SystemWorld.resolve fs w p).2.1, []) :=
  resolve_of_settled fs _ p _ (resolve_settles fs w p)

/-- On a generation-fresh path whose identity resolves, `resolve` performs
exactly one file content read (whether the read then succeeds, fails, or
the content fails to decode). -/
theorem resolve_fresh_read (fs : FileSys) (w : SystemWorld) (p : Path) (h : Nat)
    (hl : lookupA w.hashes p = none) (hh : fs.handle p = FileResult.ok h)
    (hp : lookupA w.paths h = none) :
    countReads (SystemWorld.resolve fs w p).2.2 = 1 := by
  cases hc : fs.canon p <;>
    cases hrb : fs.readBytes p with
    | err e =>
      simp [SystemWorld.resolve, SystemWorld.slot, SystemWorld.slotHash, PathHash.new,
        hl, hh, hc, hp, loadSource, PathSlot.empty, hrb, countReads, isRead]
    | ok bytes =>
      cases hdec : utf8Decode bytes <;>
        simp [SystemWorld.resolve, SystemWorld.slot, SystemWorld.slotHash, PathHash.new,
          hl, hh, hc, hp, loadSource, PathSlot.empty, hrb, hdec, SystemWorld.insert,
          countReads, isRead]

/-- The Path→Identity map produced by a `slot` miss on `p` that resolved to
`v`: the canonicalized, normalized alias (when canonicalization succeeds)
and the raw path both record `v`. -/
def hashesAfterMiss (fs : FileSys) (w : SystemWorld) (p : Path) (v : FileResult Nat) :
    List (Path × FileResult Nat) :=
  match fs.canon p with
  | some c => insertA (insertA w.hashes (fs.normalize c) v) p v
  | none => insertA w.hashes p v

/-- Any lookup in the post-miss Path→Identity map either sees the newly
recorded value or whatever the old map had. -/
theorem lookup_hashesAfterMiss (fs : FileSys) (w : SystemWorld) (p : Path)
    (v : FileResult Nat) (q : Path) :
    lookupA (hashesAfterMiss fs w p v) q = some v ∨
    lookupA (hashesAfterMiss fs w p v) q = lookupA w.hashes q := by
  by_cases hq : p = q
  · subst hq
    left
    cases hc : fs.canon p <;> simp [hashesAfterMiss, hc, lookupA_insertA]
  · cases hc : fs.canon p with
    | none => right; simp [hashesAfterMiss, hc, lookupA_insertA, hq]
    | some c =>
      by_cases hcq : fs.normalize c = q
      · left; simp [hashesAfterMiss, hc, lookupA_insertA, hq, hcq]
      · right; simp [hashesAfterMiss, hc, lookupA_insertA, hq, hcq]

/-- Behaviour of `slot` on a generation-fresh path whose identity resolves:
one stat and one canonicalize, both aliases recorded, and the slot for the
identity present. -/
theorem slot_miss_ok (fs : FileSys) (w : SystemWorld) (p : Path) (h : Nat)
    (hl : lookupA w.hashes p = none) (hh : fs.handle p = FileResult.ok h) :
    ∃ sl w1, SystemWorld.slot fs w p
        = (FileResult.ok (h, sl), w1, [FsOp.stat p, FsOp.canon p]) ∧
      w1.hashes = hashesAfterMiss fs w p (FileResult.ok h) ∧
      lookupA w1.paths h = some sl := by
  cases hc : fs.canon p with
  | none =>
    cases hp : lookupA w.paths h with
    | some sl =>
      exact ⟨sl, { w with hashes := insertA w.hashes p (FileResult.ok h) },
        by simp [SystemWorld.slot, SystemWorld.slotHash, PathHash.new, hl, hh, hc, hp],
        by simp [hashesAfterMiss, hc], hp⟩
    | none =>
      refine ⟨PathSlot.empty,
        { w with hashes := insertA w.hashes p (FileResult.ok h), paths := insertA w.paths h PathSlot.empty },
        by simp [SystemWorld.slot, SystemWorld.slotHash, PathHash.new, hl, hh, hc, hp],
        by simp [hashesAfterMiss, hc], ?_⟩
      simp [lookupA_insertA]
  | some c =>
    cases hp : lookupA w.paths h with
    | some sl =>
      exact ⟨sl,
        { w with hashes := insertA (insertA w.hashes (fs.normalize c) (FileResult.ok h)) p (FileResult.ok h) },
        by simp [SystemWorld.slot, SystemWorld.slotHash, PathHash.new, hl, hh, hc, hp],
        by simp [hashesAfterMiss, hc], hp⟩
    | none =>
      refine ⟨PathSlot.empty,
        { w with hashes := insertA (insertA w.hashes (fs.normalize c) (FileResult.ok h)) p (FileResult.ok h), paths := insertA w.paths h PathSlot.empty },
        by simp [SystemWorld.slot, SystemWorld.slotHash, PathHash.new, hl, hh, hc, hp],
        by simp [hashesAfterMiss, hc], ?_⟩
      simp [lookupA_insertA]

/-- Behaviour of `resolve` on a generation-fresh path whose identity
resolves: afterwards both aliases are recorded in the Path→Identity map and
the identity's slot caches the returned result. -/
theorem resolve_miss_ok (fs : FileSys) (w : SystemWorld) (p : Path) (h : Nat)
    (hl : lookupA w.hashes p = none) (hh : fs.handle p = FileResult.ok h) :
    ∃ r w2 ops, SystemWorld.resolve fs w p = (r, w2, ops) ∧
      w2.hashes = hashesAfterMiss fs w p (FileResult.ok h) ∧
      ∃ sl2, lookupA w2.paths h = some sl2 ∧ sl2.source = some r := by
  obtain ⟨sl, w1, hq, hhash, hp⟩ := slot_miss_ok fs w p h hl hh
  obtain ⟨r, w2, ops2, hq2, hsame, sl2, hp2, hs2⟩ := loadSource_spec fs w1 p h sl hp
  refine ⟨r, w2, [FsOp.stat p, FsOp.canon p] ++ ops2, ?_, ?_, sl2, hp2, hs2⟩
  · simp [SystemWorld.resolve, hq, hq2]
  · rw [hsame, hhash]

/-- A `resolve` whose identity is (or becomes) a cached hit on a slot with
a filled source cell answers from the cell and reads no file content. -/
theorem resolve_cached_hit (fs : FileSys) (w : SystemWorld) (p : Path) (h : Nat)
    (sl : PathSlot) (r : FileResult Nat)
    (hl : lookupA w.hashes p = none ∨ lookupA w.hashes p = some (FileResult.ok h))
    (hh : fs.handle p = FileResult.ok h)
    (hp : lookupA w.paths h = some sl) (hs : sl.source = some r) :
    (SystemWorld.resolve fs w p).1 = r ∧
    countReads (SystemWorld.resolve fs w p).2.2 = 0 := by
  rcases hl with hl | hl
  · cases hc : fs.canon p <;>
      simp [SystemWorld.resolve, SystemWorld.slot, SystemWorld.slotHash, PathHash.new,
        hl, hh, hc, hp, loadSource, hs, countReads, isRead]
  · simp [SystemWorld.resolve, SystemWorld.slot, SystemWorld.slotHash, hl, hp,
      loadSource, hs, countReads, isRead]

/-- Event kinds classified as always relevant (`create`, rename) make
`relevant` answer `true` without consulting the dependency state. -/
theorem relevant_of_always (fs : FileSys) (w : SystemWorld) (e : Event)
    (ha : alwaysRelevantKind e.kind = true) :
    SystemWorld.relevant fs w e = true := by
  obtain ⟨k, ps⟩ := e
  cases k with
  | any => simp_all [alwaysRelevantKind]
  | access => simp_all [alwaysRelevantKind]
  | create => simp [SystemWorld.relevant]
  | modify mk => cases mk <;> simp_all [alwaysRelevantKind, SystemWorld.relevant]
  | remove => simp_all [alwaysRelevantKind]
  | other => simp_all [alwaysRelevantKind]

/-- Event kinds classified as never relevant (access, metadata-only and
`other` kinds) make `relevant` answer `false` without consulting the
dependency state. -/
theorem relevant_of_never (fs : FileSys) (w : SystemWorld) (e : Event)
    (hn : neverRelevantKind e.kind = true) :
    SystemWorld.relevant fs w e = false := by
  obtain ⟨k, ps⟩ := e
  cases k with
  | any => simp_all [neverRelevantKind]
  | access => simp [SystemWorld.relevant]
  | create => simp_all [neverRelevantKind]
  | modify mk => cases mk <;> simp_all [neverRelevantKind, SystemWorld.relevant]
  | remove => simp_all [neverRelevantKind]
  | other => simp [SystemWorld.relevant]

/-- The send pass delivers the frame to exactly the sessions whose
transport accepts it, leaves failing sessions untouched in place, and
marks the index of every failing session. -/
theorem sendPass_eq (json : String) : ∀ (conns : List Conn) (n : Nat),
    sendPass json conns n
      = (conns.map (fun c => if c.ok then appendMsg json c else c),
         failedIndices conns n) := by
  intro conns
  induction conns with
  | nil => intro n; simp [sendPass, failedIndices]
  | cons c cs ih =>
    intro n
    cases hc : c.ok <;> simp [sendPass, failedIndices, hc, ih, appendMsg]

/-- Failure indices collected from start index `n` are at least `n`. -/
theorem failedIndices_ge : ∀ (conns : List Conn) (n m : Nat),
    m ∈ failedIndices conns n → n ≤ m := by
  intro conns
  induction conns with
  | nil => intro n m hm; simp [failedIndices] at hm
  | cons c cs ih =>
    intro n m hm
    cases hc : c.ok <;> rw [failedIndices] at hm <;> rw [hc] at hm <;> simp at hm
    · rcases hm with rfl | hm
      · exact le_refl m
      · exact le_trans (Nat.le_succ n) (ih (n + 1) m hm)
    · exact le_trans (Nat.le_succ n) (ih (n + 1) m hm)

/-- `Vec::contains` answers `false` when no element equals the key. -/
theorem containsNat_eq_false_of (l : List Nat) (n : Nat) (h : ∀ m ∈ l, ¬ m = n) :
    containsNat l n = false := by
  induction l with
  | nil => rfl
  | cons m rest ih =>
    have h1 : ¬ m = n := h m (List.mem_cons_self m rest)
    have h2 : containsNat rest n = false := ih fun x hx => h x (List.mem_cons_of_mem m hx)
    simp [containsNat, h1, h2]

/-- The indexed retain only consults the predicate at indices at least the
start index. -/
theorem retainIdx_congr (p q : Nat → Conn → Bool) : ∀ (l : List Conn) (n : Nat),
    (∀ i c, n ≤ i → p i c = q i c) → retainIdx p l n = retainIdx q l n := by
  intro l
  induction l with
  | nil => intro n hpq; rfl
  | cons c cs ih =>
    intro n hpq
    rw [retainIdx, retainIdx, hpq n c (le_refl n),
      ih (n + 1) fun i c2 hi => hpq i c2 (le_trans (Nat.le_succ n) hi)]

/-- Retaining the non-failed indices after the send pass keeps exactly the
sessions whose send succeeded, in order, with the frame delivered. -/
theorem retain_sent (json : String) : ∀ (conns : List Conn) (n : Nat),
    retainIdx (fun i _ => !(containsNat (failedIndices conns n) i))
        (conns.map (fun c => if c.ok then appendMsg json c else c)) n
      = (conns.filter (fun c => c.ok)).map (appendMsg json) := by
  intro conns
  induction conns with
  | nil => intro n; rfl
  | cons c cs ih =>
    intro n
    cases hc : c.ok with
    | true =>
      have hni : containsNat (failedIndices cs (n + 1)) n = false :=
        containsNat_eq_false_of _ _ fun m hm => by
          have := failedIndices_ge cs (n + 1) m hm
          omega
      simp [failedIndices, hc, retainIdx, hni, ih]
    | false =>
      have hstep :
          retainIdx (fun i _ => !(containsNat (n :: failedIndices cs (n + 1)) i))
              (cs.map (fun c2 => if c2.ok then appendMsg json c2 else c2)) (n + 1)
            = retainIdx (fun i _ => !(containsNat (failedIndices cs (n + 1)) i))
              (cs.map (fun c2 => if c2.ok then appendMsg json c2 else c2)) (n + 1) := by
        apply retainIdx_congr
        intro i c2 hi
        have hne : (n == i) = false := by
          have hx : ¬ n = i := by omega
          simpa using hx
        simp [containsNat, hne]
      have hcn : containsNat (n :: failedIndices cs (n + 1)) n = true := by
        simp [containsNat]
      simp [failedIndices, hc, retainIdx, hcn, hstep, ih]

/-- Full characterization of one broadcast pass over the session set. -/
theorem broadcast_result_spec (conns : List Conn) (imgs : List Pixmap) :
    broadcast_result conns imgs
      = (conns.filter (fun c => c.ok)).map
          (appendMsg (jsonEncodeList (imgs.map dataUri))) := by
  simp only [broadcast_result, sendPass_eq]
  exact retain_sent _ conns 0

/-- Fixture: a filesystem where the two distinct paths `a` and `b` are
links to the same underlying file (identity token 7). -/
def fsAlias : FileSys :=
  { handle := fun p => if p = "a" ∨ p = "b" then FileResult.ok 7 else FileResult.err (FileError.notFound p),
    canon := fun p => if p = "a" ∨ p = "b" then some "a" else none,
    normalize := fun p => p,
    readBytes := fun p => if p = "a" ∨ p = "b" then FileResult.ok [104] else FileResult.err (FileError.notFound p) }

/-- Fixture: a creation event for the untracked path `x`. -/
def evCreateX : Event :=
  { kind := EventKind.create, paths := ["x"] }

/-- Claim C3 counterexample: a create event whose only carried path is not
`dependant` (the identity resolver does not even know the path) is still
classified as relevant, refuting the claimed "if and only if `touched` /
`dependant` holds for some path carried by the event" for create events. -/
theorem claim_C3_counterexample :
    SystemWorld.relevant fsNone SystemWorld.empty evCreateX = true ∧
    evCreateX.paths.all (fun p => SystemWorld.dependant fsNone SystemWorld.empty p = false) := by
  constructor
  · decide
  · simp [evCreateX]
    decide

/-- Claim C3 (amended): `relevant` classifies events by kind as the code
does: create and rename (modify-name) events are always relevant, without
consulting `dependant`; access, metadata-only-modify, other-modify and
other events are never relevant; data-modify, unspecified-modify,
unspecified and remove events are relevant exactly when `dependant` holds
for some path carried by the event. -/
theorem claim_C3 (fs : FileSys) (w : SystemWorld) (ps : List Path) :
    SystemWorld.relevant fs w { kind := EventKind.create, paths := ps } = true ∧
    SystemWorld.relevant fs w { kind := EventKind.modify ModifyKind.name, paths := ps } = true ∧
    SystemWorld.relevant fs w { kind := EventKind.access, paths := ps } = false ∧
    SystemWorld.relevant fs w { kind := EventKind.modify ModifyKind.metadata, paths := ps } = false ∧
    SystemWorld.relevant fs w { kind := EventKind.modify ModifyKind.other, paths := ps } = false ∧
    SystemWorld.relevant fs w { kind := EventKind.other, paths := ps } = false ∧
    SystemWorld.relevant fs w { kind := EventKind.modify ModifyKind.data, paths := ps }
      = ps.any (fun p => SystemWorld.dependant fs w p) ∧
    SystemWorld.relevant fs w { kind := EventKind.modify ModifyKind.any, paths := ps }
      = ps.any (fun p => SystemWorld.dependant fs w p) ∧
    SystemWorld.relevant fs w { kind := EventKind.any, paths := ps }
      = ps.any (fun p => SystemWorld.dependant fs w p) ∧
    SystemWorld.relevant fs w { kind := EventKind.remove, paths := ps }
      = ps.any (fun p => SystemWorld.dependant fs w p) :=
  ⟨rfl, rfl, rfl, rfl, rfl, rfl, rfl, rfl, rfl, rfl⟩

/-- Claim C4: within one cache generation, resolving a fresh path whose
identity resolves performs exactly one file read, and a second `resolve`
of the same path returns the identical result from the memoized slot,
leaving the world unchanged and touching the filesystem not at all. -/
theorem claim_C4 (fs : FileSys) (w : SystemWorld) (p : Path) (h : Nat)
    (hl : lookupA w.hashes p = none) (hh : fs.handle p = FileResult.ok h)
    (hp : lookupA w.paths h = none) :
    countReads (SystemWorld.resolve fs w p).2.2 = 1 ∧
    SystemWorld.resolve fs (SystemWorld.resolve fs w p).2.1 p
      = ((SystemWorld.resolve fs w p).1, (SystemWorld.resolve fs w p).2.1, []) :=
  ⟨resolve_fresh_read fs w p h hl hh hp, resolve_idem fs w p⟩

/-- Claim C4 witness at a concrete input. -/
theorem claim_C4_witness :
    countReads (SystemWorld.resolve fsMain SystemWorld.empty "main").2.2 = 1 ∧
    SystemWorld.resolve fsMain (SystemWorld.resolve fsMain SystemWorld.empty "main").2.1 "main"
      = ((SystemWorld.resolve fsMain SystemWorld.empty "main").1,
         (SystemWorld.resolve fsMain SystemWorld.empty "main").2.1, []) :=
  claim_C4 fsMain SystemWorld.empty "main" 1 (by decide) (by decide) (by decide)

/-- Claim C5: two distinct fresh paths whose OS identities coincide (links
to the same file) hash to equal tokens, and after resolving the first, a
`resolve` of the second is answered from the same slot: equal result and
zero file reads. -/
theorem claim_C5 (fs : FileSys) (w : SystemWorld) (p1 p2 : Path) (h : Nat)
    (hh1 : fs.handle p1 = FileResult.ok h) (hh2 : fs.handle p2 = FileResult.ok h)
    (hl1 : lookupA w.hashes p1 = none) (hl2 : lookupA w.hashes p2 = none) :
    PathHash.new fs p1 = PathHash.new fs p2 ∧
    (SystemWorld.resolve fs (SystemWorld.resolve fs w p1).2.1 p2).1
      = (SystemWorld.resolve fs w p1).1 ∧
    countReads (SystemWorld.resolve fs (SystemWorld.resolve fs w p1).2.1 p2).2.2 = 0 := by
  obtain ⟨r, w2, ops, hq, hhash, sl2, hp2, hs2⟩ := resolve_miss_ok fs w p1 h hl1 hh1
  have hph : PathHash.new fs p1 = PathHash.new fs p2 := by
    simp [PathHash.new, hh1, hh2]
  have hdich : lookupA w2.hashes p2 = none ∨
      lookupA w2.hashes p2 = some (FileResult.ok h) := by
    rw [hhash]
    rcases lookup_hashesAfterMiss fs w p1 (FileResult.ok h) p2 with hx | hx
    · right; exact hx
    · left; rw [hx]; exact hl2
  have hc2 := resolve_cached_hit fs w2 p2 h sl2 r hdich hh2 hp2 hs2
  rw [hq]
  exact ⟨hph, hc2.1, hc2.2⟩

/-- Claim C5 witness at a concrete input: `a` and `b` alias identity 7. -/
theorem claim_C5_witness :
    PathHash.new fsAlias "a" = PathHash.new fsAlias "b" ∧
    (SystemWorld.resolve fsAlias (SystemWorld.resolve fsAlias SystemWorld.empty "a").2.1 "b").1
      = (SystemWorld.resolve fsAlias SystemWorld.empty "a").1 ∧
    countReads (SystemWorld.resolve fsAlias (SystemWorld.resolve fsAlias SystemWorld.empty "a").2.1 "b").2.2 = 0 :=
  claim_C5 fsAlias SystemWorld.empty "a" "b" 7 (by decide) (by decide) (by decide) (by decide)

/-- Claim C6: `reset` empties the Path→Identity map, the Slot map and the
Source Store, and the next `resolve` of any path whose identity resolves
performs a fresh file read, regardless of the pre-reset state. -/
theorem claim_C6 (fs : FileSys) (w : SystemWorld) (p : Path) (h : Nat)
    (hh : fs.handle p = FileResult.ok h) :
    (SystemWorld.reset w).hashes = [] ∧ (SystemWorld.reset w).paths = [] ∧
    (SystemWorld.reset w).sources = [] ∧
    countReads (SystemWorld.resolve fs (SystemWorld.reset w) p).2.2 = 1 :=
  ⟨rfl, rfl, rfl, resolve_fresh_read fs (SystemWorld.reset w) p h rfl hh rfl⟩

/-- Claim C6 witness at a concrete input: `main` was already loaded in
`wTracked`, and after `reset` it is read afresh. -/
theorem claim_C6_witness :
    (SystemWorld.reset wTracked).hashes = [] ∧ (SystemWorld.reset wTracked).paths = [] ∧
    (SystemWorld.reset wTracked).sources = [] ∧
    countReads (SystemWorld.resolve fsMain (SystemWorld.reset wTracked) "main").2.2 = 1 :=
  claim_C6 fsMain wTracked "main" 1 (by decide)

/-- Claim C7: a broadcast attempts every session (each failed send is
marked by its index), applies removals only after the pass, and leaves
exactly the sessions whose sends succeeded, in their original order, each
having received the full serialized payload. -/
theorem claim_C7 (conns : List Conn) (imgs : List Pixmap) :
    broadcast_result conns imgs
      = (conns.filter (fun c => c.ok)).map
          (appendMsg (jsonEncodeList (imgs.map dataUri))) ∧
    (sendPass (jsonEncodeList (imgs.map dataUri)) conns 0).2 = failedIndices conns 0 := by
  refine ⟨broadcast_result_spec conns imgs, ?_⟩
  rw [sendPass_eq]

/-- Claim C8: when a `resolve` fails, the failure is cached (either in the
Path→Identity map or in the slot's source cell), and a repeated `resolve`
of the same path returns the same error with no filesystem operation and
no state change. -/
theorem claim_C8 (fs : FileSys) (w : SystemWorld) (p : Path) (e : FileError)
    (he : (SystemWorld.resolve fs w p).1 = FileResult.err e) :
    Settled (SystemWorld.resolve fs w p).2.1 p (FileResult.err e) ∧
    SystemWorld.resolve fs (SystemWorld.resolve fs w p).2.1 p
      = (FileResult.err e, (SystemWorld.resolve fs w p).2.1, []) := by
  have hs := resolve_settles fs w p
  rw [he] at hs
  exact ⟨hs, by rw [resolve_idem, he]⟩

/-- Claim C8 witness at a concrete input: resolving the missing path `x`
fails, the failure is cached, and the repeat lookup is answered from the
cache. -/
theorem claim_C8_witness :
    Settled (SystemWorld.resolve fsNone SystemWorld.empty "x").2.1 "x"
        (FileResult.err (FileError.notFound "x")) ∧
    SystemWorld.resolve fsNone (SystemWorld.resolve fsNone SystemWorld.empty "x").2.1 "x"
      = (FileResult.err (FileError.notFound "x"),
         (SystemWorld.resolve fsNone SystemWorld.empty "x").2.1, []) :=
  claim_C8 fsNone SystemWorld.empty "x" (FileError.notFound "x") (by decide)

/-- Claim C1 counterexample: with a missing root file, the first relevant
event makes the watch loop terminate with an error after the single failed
recompilation — the loop does not continue, refuting "the failure is never
fatal ... to the watch loop". -/
theorem claim_C1_counterexample :
    watchEvents fsNone compilerEmptyDoc cmdMain SystemWorld.empty [evCreateX]
      = (1, StrResult.err "file not found (searched at main)") := by
  decide

/-- Claim C1 (amended): a failure to resolve the root path makes
`compile_once` return the failure as an error string (not a rendered
diagnostics report), and the watch loop propagates that error and
terminates at the next relevant event: the failure is fatal to the watch
loop (unlike compiler-reported diagnostics). -/
theorem claim_C1 (fs : FileSys) (compiler : SystemWorld → CompilerResult)
    (cmd : CompileSettings) (w : SystemWorld) (e : Event) (rest : List Event)
    (errE : FileError) (hh : fs.handle cmd.input = FileResult.err errE)
    (hrel : SystemWorld.relevant fs w e = true) :
    (compile_once fs compiler w cmd).1 = StrResult.err (FileError.message errE) ∧
    watchEvents fs compiler cmd w (e :: rest)
      = (1, StrResult.err (FileError.message errE)) := by
  have hco : (compile_once fs compiler w cmd).1
      = StrResult.err (FileError.message errE) := by
    cases hc : fs.canon cmd.input <;>
      simp [compile_once, SystemWorld.resolve, SystemWorld.slot, SystemWorld.slotHash,
        PathHash.new, SystemWorld.reset, hh, hc, lookupA]
  refine ⟨hco, ?_⟩
  rcases hq : compile_once fs compiler w cmd with ⟨r, wx⟩
  rw [hq] at hco
  have hr : r = StrResult.err (FileError.message errE) := hco
  subst hr
  simp [watchEvents, hrel, hq]

/-- Claim C1 witness at a concrete input. -/
theorem claim_C1_witness :
    (compile_once fsNone compilerEmptyDoc SystemWorld.empty cmdMain).1
      = StrResult.err (FileError.message (FileError.notFound "main")) ∧
    watchEvents fsNone compilerEmptyDoc cmdMain SystemWorld.empty (evCreateX :: [])
      = (1, StrResult.err (FileError.message (FileError.notFound "main"))) :=
  claim_C1 fsNone compilerEmptyDoc cmdMain SystemWorld.empty evCreateX []
    (FileError.notFound "main") (by decide) (by decide)

/-- Claim C2 counterexample: a burst of two content-modify events on the
same tracked file produces two recompilations, not at most one — the loop
has no debounce window and recompiles once per relevant event. -/
theorem claim_C2_counterexample :
    (watchEvents fsMain compilerEmptyDoc cmdMain wTracked [evDataMain, evDataMain]).1
      = 2 := by
  decide

/-- Claim C2 (amended): over any finite burst of delivered events the loop
invokes `compile_once` at most once per event (so at most N times for N
events, not at most once per burst); it never recompiles when every event
in the burst is of a never-relevant kind; and it recompiles at least once
when some event in the burst is of an always-relevant kind. -/
theorem claim_C2 (fs : FileSys) (compiler : SystemWorld → CompilerResult)
    (cmd : CompileSettings) (w : SystemWorld) (events : List Event) :
    (watchEvents fs compiler cmd w events).1 ≤ events.length ∧
    ((∀ e ∈ events, neverRelevantKind e.kind = true) →
      (watchEvents fs compiler cmd w events).1 = 0) ∧
    ((∃ e ∈ events, alwaysRelevantKind e.kind = true) →
      1 ≤ (watchEvents fs compiler cmd w events).1) := by
  induction events generalizing w with
  | nil => simp [watchEvents]
  | cons e rest ih =>
    by_cases hrel : SystemWorld.relevant fs w e = true
    · rcases hq : compile_once fs compiler w cmd with ⟨r, w2⟩
      cases r with
      | err msg =>
        refine ⟨?_, ?_, ?_⟩
        · simp [watchEvents, hrel, hq]
        · intro hnever
          have hx := relevant_of_never fs w e (hnever e (List.mem_cons_self e rest))
          rw [hx] at hrel
          cases hrel
        · intro _
          simp [watchEvents, hrel, hq]
      | ok imgs =>
        refine ⟨?_, ?_, ?_⟩
        · simp only [watchEvents, hrel, if_true, hq, List.length_cons]
          exact Nat.succ_le_succ (ih w2).1
        · intro hnever
          have hx := relevant_of_never fs w e (hnever e (List.mem_cons_self e rest))
          rw [hx] at hrel
          cases hrel
        · intro _
          simp [watchEvents, hrel, hq]
    · have hrelF : SystemWorld.relevant fs w e = false := by
        cases hx : SystemWorld.relevant fs w e
        · rfl
        · exact absurd hx hrel
      refine ⟨?_, ?_, ?_⟩
      · simp only [watchEvents, hrelF, if_false, List.length_cons]
        exact le_trans (ih w).1 (Nat.le_succ _)
      · intro hnever
        simp only [watchEvents, hrelF, if_false]
        exact (ih w).2.1 fun x hx => hnever x (List.mem_cons_of_mem e hx)
      · rintro ⟨e1, he1, ha⟩
        rcases List.mem_cons.mp he1 with rfl | hmem
        · exact absurd (relevant_of_always fs w e1 ha) hrel
        · simp only [watchEvents, hrelF, if_false]
          exact (ih w).2.2 ⟨e1, hmem, ha⟩

/-- Claim C2 witness at a concrete input: one create event yields at least
one recompilation. -/
theorem claim_C2_witness :
    1 ≤ (watchEvents fsMain compilerEmptyDoc cmdMain wTracked [evCreateX]).1 :=
  (claim_C2 fsMain compilerEmptyDoc cmdMain wTracked [evCreateX]).2.2
    ⟨evCreateX, by decide, by decide⟩

/-- Short lookup lemma: `get?` inside the left part of an append. -/
theorem get?_append_left {α : Type} : ∀ (l1 l2 : List α) (i : Nat),
    i < l1.length → (l1 ++ l2).get? i = l1.get? i := by
  intro l1
  induction l1 with
  | nil => intro l2 i hi; cases hi
  | cons a l ih =>
    intro l2 i hi
    cases i with
    | zero => rfl
    | succ j => exact ih l2 j (Nat.lt_of_succ_lt_succ hi)

/-- Short lookup lemma: `get?` at the length of the prefix of a one-element
append. -/
theorem get?_append_length {α : Type} : ∀ (l : List α) (a : α),
    (l ++ [a]).get? l.length = some a := by
  intro l
  induction l with
  | nil => intro a; rfl
  | cons b l ih => intro a; exact ih a

/-- Short lookup lemma: `get?` past the end is `none`. -/
theorem get?_of_ge {α : Type} : ∀ (l : List α) (i : Nat),
    l.length ≤ i → l.get? i = none := by
  intro l
  induction l with
  | nil => intro i _; rfl
  | cons a l ih =>
    intro i hi
    cases i with
    | zero => cases hi
    | succ j => exact ih j (Nat.le_of_succ_le_succ hi)

/-- Length of the iterated-insert world. -/
theorem insertN_length : ∀ (n : Nat) (w : SystemWorld),
    (insertN w n).sources.length = w.sources.length + n := by
  intro n
  induction n with
  | zero => intro w; simp [insertN]
  | succ m ih =>
    intro w
    rw [insertN, ih]
    simp [SystemWorld.insert]
    omega

/-- Claim C9 counterexample: after 65536 inserts (a state reached by the
program's own `insert` operation), the next insert is assigned id 0, not
the store length 65536 — `SourceId::from_u16(len as u16)` truncates, so
"insert always assigns id equal to the current store length" fails. -/
theorem claim_C9_counterexample :
    ((insertN SystemWorld.empty 65536).insert "p" "t").1 = 0 ∧
    (insertN SystemWorld.empty 65536).sources.length = 65536 := by
  have hlen : (insertN SystemWorld.empty 65536).sources.length = 65536 := by
    have hx := insertN_length 65536 SystemWorld.empty
    simpa [SystemWorld.empty] using hx
  exact ⟨by simp [SystemWorld.insert, hlen], hlen⟩

/-- Claim C9 (amended): `insert` assigns id `length mod 2^16`; while the
store holds fewer than 2^16 sources this is exactly the store length, the
store invariant "the i-th stored source has id i" is preserved, the id
just produced looks up to the just-inserted source (whose id equals it),
and any id whose `u16` value is at or beyond the store length makes
`source` partial (`none`, an out-of-bounds panic in Rust). -/
theorem claim_C9 (w : SystemWorld) (p : Path) (t : String)
    (hlen : w.sources.length < 65536)
    (hinv : ∀ i s, w.sources.get? i = some s → s.id = i) :
    (SystemWorld.insert w p t).1 = w.sources.length ∧
    (∀ i s, (SystemWorld.insert w p t).2.sources.get? i = some s → s.id = i) ∧
    SystemWorld.source (SystemWorld.insert w p t).2 (SystemWorld.insert w p t).1
      = some { id := w.sources.length, path := p, text := t } ∧
    (∀ j, w.sources.length ≤ j % 65536 → SystemWorld.source w j = none) := by
  have hid : w.sources.length % 65536 = w.sources.length := Nat.mod_eq_of_lt hlen
  refine ⟨by simp [SystemWorld.insert, hid], ?_, ?_, ?_⟩
  · intro i s hget
    simp only [SystemWorld.insert] at hget
    rcases lt_trichotomy i w.sources.length with hi | hi | hi
    · rw [get?_append_left _ _ _ hi] at hget
      exact hinv i s hget
    · subst hi
      rw [get?_append_length] at hget
      cases hget
      simp [hid]
    · rw [get?_of_ge] at hget
      · cases hget
      · simp only [List.length_append, List.length_cons, List.length_nil]
        omega
  · simp only [SystemWorld.insert, SystemWorld.source, hid]
    exact get?_append_length _ _
  · intro j hj
    exact get?_of_ge _ _ hj

/-- Claim C9 witness at a concrete input: inserting into the empty store. -/
theorem claim_C9_witness :
    (SystemWorld.insert SystemWorld.empty "p" "t").1 = SystemWorld.empty.sources.length ∧
    (∀ i s, (SystemWorld.insert SystemWorld.empty "p" "t").2.sources.get? i = some s → s.id = i) ∧
    SystemWorld.source (SystemWorld.insert SystemWorld.empty "p" "t").2
        (SystemWorld.insert SystemWorld.empty "p" "t").1
      = some { id := SystemWorld.empty.sources.length, path := "p", text := "t" } ∧
    (∀ j, SystemWorld.empty.sources.length ≤ j % 65536 →
      SystemWorld.source SystemWorld.empty j = none) :=
  claim_C9 SystemWorld.empty "p" "t" (by decide)
    (fun i s hget => by simp [SystemWorld.empty] at hget)

/-- Fixture: the world produced by resolving `main` on `fsMain` from a
reset empty world (the `main` field still detached). -/
def w1Main : SystemWorld :=
  { hashes := [("main", FileResult.ok 1)],
    paths := [(1, { source := some (FileResult.ok 0), buffer := none })],
    sources := [{ id := 0, path := "main", text := "h" }],
    main := 65535 }

/-- Claim C10: when the compiler reports diagnostics, `compile_once`
returns `Ok` with an empty page list (no error and no separate variant),
the broadcast then sends every viewer whose transport works the JSON text
frame for the empty list, and the watch loop goes on to the remaining
events instead of stopping. -/
theorem claim_C10 (fs : FileSys) (compiler : SystemWorld → CompilerResult)
    (cmd : CompileSettings) (w : SystemWorld) (id : Nat) (w1 : SystemWorld)
    (ops : List FsOp) (errs : List SourceError) (conns : List Conn)
    (e : Event) (rest : List Event)
    (hres : SystemWorld.resolve fs (SystemWorld.reset w) cmd.input
      = (FileResult.ok id, w1, ops))
    (hcomp : compiler { w1 with main := id } = CompilerResult.errors errs)
    (hrel : SystemWorld.relevant fs w e = true) :
    compile_once fs compiler w cmd = (StrResult.ok [], { w1 with main := id }) ∧
    jsonEncodeList (([] : List Pixmap).map dataUri) = "[]" ∧
    broadcast_result conns [] = (conns.filter (fun c => c.ok)).map (appendMsg "[]") ∧
    watchEvents fs compiler cmd w (e :: rest)
      = ((watchEvents fs compiler cmd { w1 with main := id } rest).1 + 1,
         (watchEvents fs compiler cmd { w1 with main := id } rest).2) := by
  have hco : compile_once fs compiler w cmd
      = (StrResult.ok [], { w1 with main := id }) := by
    simp [compile_once, hres, hcomp]
  have hjson : jsonEncodeList (([] : List Pixmap).map dataUri) = "[]" := by decide
  refine ⟨hco, hjson, ?_, ?_⟩
  · rw [broadcast_result_spec, hjson]
  · simp [watchEvents, hrel, hco]

/-- Claim C10 witness at a concrete input: compiling `main` with a
compiler that reports one diagnostic. -/
theorem claim_C10_witness :
    compile_once fsMain compilerFailing SystemWorld.empty cmdMain
      = (StrResult.ok [], { w1Main with main := 0 }) ∧
    jsonEncodeList (([] : List Pixmap).map dataUri) = "[]" ∧
    broadcast_result ([] : List Conn) []
      = (([] : List Conn).filter (fun c => c.ok)).map (appendMsg "[]") ∧
    watchEvents fsMain compilerFailing cmdMain SystemWorld.empty (evCreateX :: [])
      = ((watchEvents fsMain compilerFailing cmdMain { w1Main with main := 0 } []).1 + 1,
         (watchEvents fsMain compilerFailing cmdMain { w1Main with main := 0 } []).2) :=
  claim_C10 fsMain compilerFailing cmdMain SystemWorld.empty 0 w1Main
    [FsOp.stat "main", FsOp.canon "main", FsOp.readFile "main"]
    [{ message := "boom" }] [] evCreateX [] (by decide) (by decide) (by decide)

end Ws
